import Mathlib

/-!
Verification of the Redis cache helper layer (`src/types.ts` part: `setRedis`,
`getRedis`, `deleteRedis`, `deleteKeysWithPrefix`) and the rate limiter
configuration of this repository.

The cache helpers are thin wrappers over two external collaborators:

* the Redis client (`redis.set key value EX ttl`, `redis.get`, `redis.del`,
  `redis.keys`), modelled as a finite store of (key, raw string, expiry) triples
  with an explicit clock;
* the JavaScript built-ins `JSON.stringify` / `JSON.parse`, modelled concretely
  below on an inductive type of JSON values.  Numbers are modelled as integers
  (JavaScript numbers are IEEE doubles; the integral fragment is what the
  round-trip claims exercise, and `JSON.stringify` prints integral doubles
  exactly as their decimal digits, which is what `natDigits` below produces).

The serializer follows `JSON.stringify` with no indent argument: strings are
quoted with `"` / `\` / control-character escaping (short escapes for
backspace, tab, newline, form feed, carriage return, and a \u00XX escape for
the remaining control characters), arrays and objects are emitted without any
whitespace.  The parser follows the JSON grammar accepted by `JSON.parse`:
optional whitespace (space, tab, newline, carriage return) between tokens,
the literals true/false/null, quoted strings with the escape sequences
`\" \\ \/ \b \f \n \r \t \uXXXX`, integers without leading zeros, arrays and
objects.
-/

/-- JSON whitespace characters (the four accepted by `JSON.parse`). -/
def isWsB (c : Char) : Bool :=
  c = ' ' || c = '\t' || c = '\n' || c = '\x0d'

/-- Drop leading JSON whitespace. -/
def skipWs : List Char → List Char
  | [] => []
  | c :: r => if isWsB c then skipWs r else c :: r

/-- ASCII decimal digit test (JS `0-9`). -/
def isDigitB (c : Char) : Bool :=
  48 ≤ c.toNat && c.toNat ≤ 57

/-- Does the list start with a decimal digit? -/
def numStart (l : List Char) : Bool :=
  match l with
  | [] => false
  | c :: _ => isDigitB c

/-- Decimal digit character for `d < 10`. -/
def digitChar (d : Nat) : Char := Char.ofNat (48 + d)

/-- Lower-case hex digit character, as produced by `JSON.stringify` in
`\u00XX` escapes. -/
def hexDigit (d : Nat) : Char :=
  if d < 10 then Char.ofNat (48 + d) else Char.ofNat (87 + d)

/-- Hex digit value accepted by `JSON.parse` in `\uXXXX` escapes. -/
def fromHex (c : Char) : Option Nat :=
  if 48 ≤ c.toNat ∧ c.toNat ≤ 57 then some (c.toNat - 48)
  else if 97 ≤ c.toNat ∧ c.toNat ≤ 102 then some (c.toNat - 87)
  else if 65 ≤ c.toNat ∧ c.toNat ≤ 70 then some (c.toNat - 55)
  else none

/-- Decimal digits of `n`, most significant first (no leading zeros; `0`
prints as "0") — the digits `JSON.stringify` prints for an integral number. -/
def natDigits (n : Nat) : List Char :=
  if n < 10 then [digitChar n]
  else natDigits (n / 10) ++ [digitChar (n % 10)]
termination_by n
decreasing_by exact Nat.div_lt_self (by omega) (by omega)

/-- Digits of an integer, with a leading minus sign when negative. -/
def intChars (n : Int) : List Char :=
  if n < 0 then '-' :: natDigits (-n).toNat else natDigits n.toNat

/-- `JSON.stringify` escaping of one string character. -/
def escapeChar (c : Char) : List Char :=
  if c = '"' then ['\\', '"']
  else if c = '\\' then ['\\', '\\']
  else if c = '\x08' then ['\\', 'b']
  else if c = '\x0c' then ['\\', 'f']
  else if c = '\n' then ['\\', 'n']
  else if c = '\x0d' then ['\\', 'r']
  else if c = '\t' then ['\\', 't']
  else if c.toNat < 32 then
    ['\\', 'u', '0', '0', hexDigit (c.toNat / 16), hexDigit (c.toNat % 16)]
  else [c]

/-- `JSON.stringify` escaping of a character list. -/
def escapeChars : List Char → List Char
  | [] => []
  | c :: r => escapeChar c ++ escapeChars r

/-- The characters of a JSON string literal for `s` (quotes included). -/
def strLitChars (s : String) : List Char :=
  '"' :: (escapeChars s.data ++ ['"'])

/-- The characters of the literal `true`. -/
def litTrue : List Char := ['t', 'r', 'u', 'e']

/-- The characters of the literal `false`. -/
def litFalse : List Char := ['f', 'a', 'l', 's', 'e']

/-- The characters of the literal `null`. -/
def litNull : List Char := ['n', 'u', 'l', 'l']

/-- JSON values: the domain of JSON-serializable JavaScript values
(strings, integral numbers, booleans, null, arrays, objects). -/
inductive Json where
  | str (s : String)
  | num (n : Int)
  | bool (b : Bool)
  | null
  | arr (elems : List Json)
  | obj (fields : List (String × Json))
deriving Repr

mutual

/-- `JSON.stringify` (no indent): characters of the serialization of a value. -/
def stringifyVal : Json → List Char
  | Json.str s => strLitChars s
  | Json.num n => intChars n
  | Json.bool true => litTrue
  | Json.bool false => litFalse
  | Json.null => litNull
  | Json.arr [] => ['[', ']']
  | Json.arr (v :: vs) => '[' :: (stringifyVal v ++ arrTailChars vs)
  | Json.obj [] => ['\x7b', '\x7d']
  | Json.obj (f :: fs) =>
      '\x7b' :: (strLitChars f.1 ++ ':' :: (stringifyVal f.2 ++ objTailChars fs))

/-- Serialization of the remaining array elements, each preceded by a comma,
with the closing bracket. -/
def arrTailChars : List Json → List Char
  | [] => [']']
  | v :: vs => ',' :: (stringifyVal v ++ arrTailChars vs)

/-- Serialization of the remaining object fields, each preceded by a comma,
with the closing brace. -/
def objTailChars : List (String × Json) → List Char
  | [] => ['\x7d']
  | f :: fs => ',' :: (strLitChars f.1 ++ ':' :: (stringifyVal f.2 ++ objTailChars fs))

end

/-- `JSON.stringify` of a value, as a string. -/
def Json.stringify (v : Json) : String := String.mk (stringifyVal v)

mutual

/-- Structural size of a JSON value (used as parser fuel bound). -/
def sizeVal : Json → Nat
  | Json.str _ => 1
  | Json.num _ => 1
  | Json.bool _ => 1
  | Json.null => 1
  | Json.arr vs => sizeArr vs + 1
  | Json.obj fs => sizeObj fs + 1

/-- Structural size of a JSON array tail. -/
def sizeArr : List Json → Nat
  | [] => 1
  | v :: vs => sizeVal v + sizeArr vs

/-- Structural size of a JSON object tail. -/
def sizeObj : List (String × Json) → Nat
  | [] => 1
  | f :: fs => sizeVal f.2 + sizeObj fs

end

/-- Prepend a character to the string being accumulated by the
string-body parser. -/
def psCons (c : Char) (o : Option (List Char × List Char)) :
    Option (List Char × List Char) :=
  o.map (fun p => (c :: p.1, p.2))

/-- Parser for the body of a JSON string literal (after the opening quote):
returns the unescaped characters and the remainder after the closing quote.
Raw control characters are rejected, exactly as in `JSON.parse`. -/
def parseStringBody : List Char → Option (List Char × List Char)
  | [] => none
  | c :: r =>
    if c = '"' then some ([], r)
    else if c = '\\' then
      match r with
      | [] => none
      | e :: r2 =>
        if e = '"' then psCons '"' (parseStringBody r2)
        else if e = '\\' then psCons '\\' (parseStringBody r2)
        else if e = '/' then psCons '/' (parseStringBody r2)
        else if e = 'b' then psCons '\x08' (parseStringBody r2)
        else if e = 'f' then psCons '\x0c' (parseStringBody r2)
        else if e = 'n' then psCons '\n' (parseStringBody r2)
        else if e = 'r' then psCons '\x0d' (parseStringBody r2)
        else if e = 't' then psCons '\t' (parseStringBody r2)
        else if e = 'u' then
          match r2 with
          | h1 :: h2 :: h3 :: h4 :: r3 =>
            match fromHex h1, fromHex h2, fromHex h3, fromHex h4 with
            | some d1, some d2, some d3, some d4 =>
                psCons (Char.ofNat (((d1 * 16 + d2) * 16 + d3) * 16 + d4))
                  (parseStringBody r3)
            | _, _, _, _ => none
          | _ => none
        else none
    else if c.toNat < 32 then none
    else psCons c (parseStringBody r)

/-- Accumulate a decimal number over leading digits; stops at the first
non-digit. -/
def parseDigitsAcc (acc : Nat) : List Char → Nat × List Char
  | [] => (acc, [])
  | c :: r =>
    if isDigitB c then parseDigitsAcc (acc * 10 + (c.toNat - 48)) r
    else (acc, c :: r)

/-- Parse a JSON natural number: at least one digit, no leading zeros. -/
def parseNat : List Char → Option (Nat × List Char)
  | [] => none
  | c :: r =>
    if c = '0' then (if numStart r then none else some (0, r))
    else if isDigitB c then some (parseDigitsAcc (c.toNat - 48) r)
    else none

mutual

/-- Fueled parser for one JSON value (the grammar accepted by `JSON.parse`,
with numbers restricted to integers). -/
def parseVal : Nat → List Char → Option (Json × List Char)
  | 0, _ => none
  | fuel + 1, cs =>
    let r := skipWs cs
    if litTrue.isPrefixOf r then some (Json.bool true, r.drop 4)
    else if litFalse.isPrefixOf r then some (Json.bool false, r.drop 5)
    else if litNull.isPrefixOf r then some (Json.null, r.drop 4)
    else
      match r with
      | [] => none
      | c :: r1 =>
        if c = '"' then
          match parseStringBody r1 with
          | some (s, r2) => some (Json.str (String.mk s), r2)
          | none => none
        else if c = '[' then
          let r2 := skipWs r1
          if r2.head? = some ']' then some (Json.arr [], r2.tail)
          else
            match parseVal fuel r2 with
            | some (v, r3) =>
              match parseArrTail fuel r3 with
              | some (vs, r4) => some (Json.arr (v :: vs), r4)
              | none => none
            | none => none
        else if c = '\x7b' then
          let r2 := skipWs r1
          if r2.head? = some '\x7d' then some (Json.obj [], r2.tail)
          else if r2.head? = some '"' then
            match parseStringBody r2.tail with
            | some (ks, r3) =>
              let r4 := skipWs r3
              if r4.head? = some ':' then
                match parseVal fuel r4.tail with
                | some (v, r5) =>
                  match parseObjTail fuel r5 with
                  | some (fs, r6) => some (Json.obj ((String.mk ks, v) :: fs), r6)
                  | none => none
                | none => none
              else none
            | none => none
          else none
        else if c = '-' then
          match parseNat r1 with
          | some (n, r2) => some (Json.num (-(n : Int)), r2)
          | none => none
        else if isDigitB c then
          match parseNat (c :: r1) with
          | some (n, r2) => some (Json.num (n : Int), r2)
          | none => none
        else none

/-- Fueled parser for the rest of an array after one element: either `]`
or a comma followed by an element. -/
def parseArrTail : Nat → List Char → Option (List Json × List Char)
  | 0, _ => none
  | fuel + 1, cs =>
    let r := skipWs cs
    if r.head? = some ']' then some ([], r.tail)
    else if r.head? = some ',' then
      match parseVal fuel r.tail with
      | some (v, r2) =>
        match parseArrTail fuel r2 with
        | some (vs, r3) => some (v :: vs, r3)
        | none => none
      | none => none
    else none

/-- Fueled parser for the rest of an object after one field: either a
closing brace or a comma followed by a `"key": value` field. -/
def parseObjTail : Nat → List Char → Option (List (String × Json) × List Char)
  | 0, _ => none
  | fuel + 1, cs =>
    let r := skipWs cs
    if r.head? = some '\x7d' then some ([], r.tail)
    else if r.head? = some ',' then
      let r2 := skipWs r.tail
      if r2.head? = some '"' then
        match parseStringBody r2.tail with
        | some (ks, r3) =>
          let r4 := skipWs r3
          if r4.head? = some ':' then
            match parseVal fuel r4.tail with
            | some (v, r5) =>
              match parseObjTail fuel r5 with
              | some (fs, r6) => some ((String.mk ks, v) :: fs, r6)
              | none => none
            | none => none
          else none
        | none => none
      else none
    else none

end

/-- `JSON.parse`: parse a whole string as one JSON value (whitespace allowed
around it); `none` models the `SyntaxError` throw. -/
def Json.parse (s : String) : Option Json :=
  match parseVal (s.data.length + 1) s.data with
  | some (v, r) => if skipWs r = [] then some v else none
  | none => none

/-!
## The Redis store model

The repository talks to Redis through `ioredis` with the commands
`SET key value EX ttl`, `GET key`, `DEL key`, `DEL key...`, `KEYS pattern`.
The store is modelled as a list of (key, raw string value, absolute expiry
time) entries, with an explicit clock `now` in seconds; an entry is live
while `now < expiry`.  `SET ... EX ttl` computes `expiry = now + ttl` and
rejects a non-positive `ttl` with an `ERR invalid expire time` reply, as
Redis does.  `KEYS pattern` uses glob-style matching (Redis `util.c`
`stringmatchlen`): `*` matches any sequence, `?` any single character,
`[...]` a character class (with `^` negation and `a-b` ranges, an
unterminated class running to the end of the pattern), and `\` escapes the
next character; any other character matches itself.  `globMatch` below
implements that matcher (case-sensitive, as `KEYS` is), and
`redisKeysWithPre` applies it with the pattern `prefix + "*"` exactly as
`deleteKeysWithPrefix` does — so a prefix containing glob metacharacters
matches per glob semantics, not literally.
-/

/-- The Redis store: (key, raw string value, absolute expiry in seconds). -/
abbrev Store := List (String × String × Nat)

/-- `GET key` at time `now`: the raw string if the key exists and has not
expired, otherwise absent (`nil` reply, i.e. `null` in JS). -/
def redisGet (st : Store) (k : String) (now : Nat) : Option String :=
  match st.find? (fun e => e.1 == k) with
  | some e => if now < e.2.2 then some e.2.1 else none
  | none => none

/-- The Redis error reply for `SET ... EX ttl` with `ttl ≤ 0`. -/
def redisErrInvalidExpire : String := "ERR invalid expire time in set"

/-- `SET k v EX ttl` at time `now`: rejects a non-positive expiry,
otherwise stores `v` under `k` with expiry `now + ttl`, replacing any
previous entry for `k`. -/
def redisSetEx (st : Store) (k v : String) (ttl : Int) (now : Nat) :
    Except String Store :=
  if ttl ≤ 0 then Except.error redisErrInvalidExpire
  else Except.ok ((k, v, now + ttl.toNat) :: st.filter (fun e => !(e.1 == k)))

/-- `DEL k`: removes the entry for `k` (no error if absent). -/
def redisDel (st : Store) (k : String) : Store :=
  st.filter (fun e => !(e.1 == k))

mutual

/-- Redis glob-style matching of a pattern against a string
(`util.c stringmatchlen`, case-sensitive): `*` matches any sequence
(including the empty one), `?` any single character, `[...]` a character
class, `\` escapes the following character, anything else matches
itself literally. -/
def globMatch : List Char → List Char → Bool
  | [], s => s.isEmpty
  | a :: p, s =>
      if a = '*' then
        globMatch p s ||
          (match s with
           | [] => false
           | _ :: s2 => globMatch (a :: p) s2)
      else if a = '?' then
        (match s with
         | [] => false
         | _ :: s2 => globMatch p s2)
      else if a = '[' then
        (match s with
         | [] => false
         | c :: s2 => globClassStart p c s2)
      else if a = '\\' then
        (match p with
         | e :: p2 =>
           (match s with
            | [] => false
            | c :: s2 => (e == c) && globMatch p2 s2)
         | [] =>
           (match s with
            | [] => false
            | c :: s2 => (a == c) && globMatch [] s2))
      else
        (match s with
         | [] => false
         | c :: s2 => (a == c) && globMatch p s2)
termination_by p s => p.length + s.length

/-- Enter a `[...]` class: a leading `^` negates the class. -/
def globClassStart : List Char → Char → List Char → Bool
  | '^' :: p1, c, s2 => globClassScan p1 c true false s2
  | p, c, s2 => globClassScan p c false false s2
termination_by p c s2 => p.length + s2.length + 1

/-- Scan the body of a `[...]` class against the character `c`,
accumulating in `m` whether any alternative matched (`neg` records a
leading `^`); at the closing `]` — or at the end of an unterminated
class — resume matching the rest of the pattern against `s2`. -/
def globClassScan : List Char → Char → Bool → Bool → List Char → Bool
  | '\\' :: e :: p2, c, neg, m, s2 => globClassScan p2 c neg (m || (e == c)) s2
  | ']' :: p2, c, neg, m, s2 =>
      (if neg then !m else m) && globMatch p2 s2
  | [], _, neg, m, s2 => (if neg then !m else m) && s2.isEmpty
  | a :: '-' :: b :: p2, c, neg, m, s2 =>
      globClassScan p2 c neg
        (m || (min a.toNat b.toNat ≤ c.toNat && c.toNat ≤ max a.toNat b.toNat)) s2
  | a :: p2, c, neg, m, s2 => globClassScan p2 c neg (m || (a == c)) s2
termination_by p c neg m s2 => p.length + s2.length

end

/-- Is the character list free of the glob metacharacters of `KEYS`
patterns?  (For such prefixes `prefix + "*"` matches exactly the keys
beginning with the prefix.) -/
def noGlobChars (l : List Char) : Bool :=
  l.all (fun c => !(c == '*' || c == '?' || c == '[' || c == '\\'))

/-- `KEYS (pre + "*")` at time `now`: the unexpired keys matching the glob
pattern `pre + "*"` — the pattern `deleteKeysWithPrefix` passes. -/
def redisKeysWithPre (st : Store) (pre : String) (now : Nat) : List String :=
  (st.filter (fun e => globMatch (pre.data ++ ['*']) e.1.data
    && decide (now < e.2.2))).map (fun e => e.1)

/-- `DEL k1 k2 ...`: removes every entry whose key is in `ks`. -/
def redisDelMulti (st : Store) (ks : List String) : Store :=
  st.filter (fun e => !(ks.contains e.1))

/-- `const REDIS_TTL = 60 * 60; // 1 hour` from `src/actions/redis.ts`. -/
def REDIS_TTL : Int := 60 * 60

/-- The JS `SyntaxError` thrown by `JSON.parse` on malformed input. -/
def jsonSyntaxErr : String := "SyntaxError: Unexpected token in JSON"

/-- `setRedis(key, value, ttl?)` from the source:
`await redis.set(key, JSON.stringify(value), 'EX', ttl ?? REDIS_TTL)`.
`ttl : Option Int` models the optional `number` parameter (absent / `null`
both map to `none`, which `??` replaces with `REDIS_TTL`). -/
def setRedis (st : Store) (k : String) (v : Json) (ttl : Option Int) (now : Nat) :
    Except String Store :=
  redisSetEx st k (Json.stringify v) (ttl.getD REDIS_TTL) now

/-- `getRedis(key)` from the source:
`const value = await redis.get(key); return value ? JSON.parse(value) : undefined`.
The JS truthiness test makes both a `null` reply and an empty-string value
yield `undefined` (modelled `Except.ok none`); otherwise `JSON.parse` runs
and a parse failure propagates as a thrown `SyntaxError`
(modelled `Except.error`). -/
def getRedis (st : Store) (k : String) (now : Nat) : Except String (Option Json) :=
  match redisGet st k now with
  | none => Except.ok none
  | some s =>
    if s = "" then Except.ok none
    else
      match Json.parse s with
      | some v => Except.ok (some v)
      | none => Except.error jsonSyntaxErr

/-- `deleteRedis(key)` from the source: `await redis.del(key)`. -/
def deleteRedis (st : Store) (k : String) : Store := redisDel st k

/-- `deleteKeysWithPrefix(prefix)` from the source:
`const keys = await redis.keys(prefix + "*"); if (keys.length === 0)
{ logger.info(...); return; } await redis.del(keys)`.
The logger call does not affect the store. -/
def deleteKeysWithPrefix (st : Store) (pre : String) (now : Nat) : Store :=
  let ks := redisKeysWithPre st pre now
  if ks.isEmpty then st
  else redisDelMulti st ks

/-!
## The rate limiter

`src/config/rate-limiter.ts` only instantiates
`new RateLimiterMemory({ points: 5, duration: 60 })` from the external
`rate-limiter-flexible` package, so the limiter behaviour itself is
modelled from the spec.
-/

/-- The limiter configuration: point budget per window, window duration in
seconds. -/
structure RateLimiterMemory where
  points : Nat
  duration : Nat

/-- `export const rateLimiter = new RateLimiterMemory({ points: 5, duration: 60 })`. -/
def rateLimiter : RateLimiterMemory := { points := 5, duration := 60 }

/-- Per-key limiter state: (key, consumed points, window expiry in ms). -/
abbrev RLState := List (String × Nat × Nat)

/-- The record stored for a key, if any. -/
def rlLookup (st : RLState) (k : String) : Option (Nat × Nat) :=
  (st.find? (fun e => e.1 == k)).map (fun e => e.2)

/-- Replace the record stored for a key. -/
def rlSet (st : RLState) (k : String) (cnt expiry : Nat) : RLState :=
  (k, cnt, expiry) :: st.filter (fun e => !(e.1 == k))

/-- Modelled from the spec: `consume(key)` of the in-memory rate limiter
(the `rate-limiter-flexible` `RateLimiterMemory`, which is not part of this
repository).  Per the spec (§3, §4.2): the bucket is created on first
consumption with a window of `duration` seconds; within a live window each
call increments the key's counter and succeeds while the counter is within
the `points` budget; once the window has elapsed the counter and window are
reset together.  Returns (success, new state); `now` is in ms. -/
def consume (cfg : RateLimiterMemory) (st : RLState) (k : String) (now : Nat) :
    Bool × RLState :=
  match rlLookup st k with
  | some p =>
    if now < p.2 then
      (decide (p.1 + 1 ≤ cfg.points), rlSet st k (p.1 + 1) p.2)
    else
      (decide (1 ≤ cfg.points), rlSet st k 1 (now + cfg.duration * 1000))
  | none => (decide (1 ≤ cfg.points), rlSet st k 1 (now + cfg.duration * 1000))

/-- Fold `consume` for one key over a list of call times. -/
def consumeMany (cfg : RateLimiterMemory) (st : RLState) (k : String)
    (ts : List Nat) : RLState :=
  ts.foldl (fun s t => (consume cfg s k t).2) st


theorem isPrefixOf_cons_of_ne (a b : Char) (l m : List Char) (h : ¬ a = b) :
    (a :: l).isPrefixOf (b :: m) = false := by
  simp [List.isPrefixOf, h]

theorem digitChar_toNat (d : Nat) (h : d < 10) : (digitChar d).toNat = 48 + d := by
  interval_cases d <;> decide

theorem isDigitB_digitChar (d : Nat) (h : d < 10) : isDigitB (digitChar d) = true := by
  interval_cases d <;> decide

theorem isWsB_digitChar (d : Nat) (h : d < 10) : isWsB (digitChar d) = false := by
  interval_cases d <;> decide

theorem fromHex_hexDigit (d : Nat) (h : d < 16) : fromHex (hexDigit d) = some d := by
  interval_cases d <;> decide

theorem skipWs_cons (c : Char) (l : List Char) (h : isWsB c = false) :
    skipWs (c :: l) = c :: l := by
  simp [skipWs, h]

theorem natDigits_head (n : Nat) :
    ∃ d t, d < 10 ∧ natDigits n = digitChar d :: t := by
  induction n using Nat.strong_induction_on with
  | _ n ih =>
    rw [natDigits]
    by_cases h : n < 10
    · exact ⟨n, [], h, by simp [h]⟩
    · obtain ⟨d, t, hd, heq⟩ := ih (n / 10) (Nat.div_lt_self (by omega) (by omega))
      exact ⟨d, t ++ [digitChar (n % 10)], hd, by simp [h, heq]⟩

theorem natDigits_pos_head (n : Nat) (hn : 1 ≤ n) :
    ∃ d t, 1 ≤ d ∧ d < 10 ∧ natDigits n = digitChar d :: t := by
  induction n using Nat.strong_induction_on with
  | _ n ih =>
    rw [natDigits]
    by_cases h : n < 10
    · exact ⟨n, [], hn, h, by simp [h]⟩
    · obtain ⟨d, t, hd1, hd, heq⟩ :=
        ih (n / 10) (Nat.div_lt_self (by omega) (by omega)) (by omega)
      exact ⟨d, t ++ [digitChar (n % 10)], hd1, hd, by simp [h, heq]⟩

theorem parseDigitsAcc_append (n : Nat) :
    ∀ acc rest, parseDigitsAcc acc (natDigits n ++ rest) =
      parseDigitsAcc (acc * 10 ^ (natDigits n).length + n) rest := by
  induction n using Nat.strong_induction_on with
  | _ n ih =>
    intro acc rest
    by_cases h : n < 10
    · rw [natDigits, if_pos h]
      simp [parseDigitsAcc, isDigitB_digitChar n h, digitChar_toNat n h]
    · rw [natDigits, if_neg h]
      have hlt : n / 10 < n := Nat.div_lt_self (by omega) (by omega)
      rw [List.append_assoc, List.cons_append, List.nil_append, ih (n / 10) hlt]
      have h10 : n % 10 < 10 := Nat.mod_lt _ (by omega)
      rw [parseDigitsAcc, if_pos (isDigitB_digitChar _ h10), digitChar_toNat _ h10]
      have hdm : 10 * (n / 10) + n % 10 = n := Nat.div_add_mod n 10
      have harith :
          (acc * 10 ^ (natDigits (n / 10)).length + n / 10) * 10 + (48 + n % 10 - 48) =
            acc * 10 ^ (natDigits (n / 10) ++ [digitChar (n % 10)]).length + n := by
        rw [List.length_append, List.length_cons, List.length_nil, pow_succ]
        have hmod : 48 + n % 10 - 48 = n % 10 := by omega
        rw [hmod]
        calc (acc * 10 ^ (natDigits (n / 10)).length + n / 10) * 10 + n % 10
            = acc * (10 ^ (natDigits (n / 10)).length * 10) + (10 * (n / 10) + n % 10) := by
              ring
          _ = acc * (10 ^ (natDigits (n / 10)).length * 10) + n := by rw [hdm]
      rw [harith]

theorem parseDigitsAcc_stop (acc : Nat) (l : List Char) (h : numStart l = false) :
    parseDigitsAcc acc l = (acc, l) := by
  cases l with
  | nil => rfl
  | cons c r =>
    simp only [numStart] at h
    simp [parseDigitsAcc, h]

theorem parseNat_natDigits (n : Nat) (rest : List Char) (h : numStart rest = false) :
    parseNat (natDigits n ++ rest) = some (n, rest) := by
  by_cases h0 : n = 0
  · subst h0
    rw [natDigits]
    simp only [Nat.zero_lt_succ, if_pos (by omega : (0 : Nat) < 10)]
    have : digitChar 0 = '0' := by decide
    simp [this, parseNat, h]
  · obtain ⟨d, t, hd1, hd, heq⟩ := natDigits_pos_head n (by omega)
    rw [heq, List.cons_append, parseNat]
    have hne : ¬ digitChar d = '0' := by
      intro hc
      have h1 := digitChar_toNat d hd
      rw [hc] at h1
      have h2 : ('0' : Char).toNat = 48 := by decide
      omega
    rw [if_neg hne, if_pos (isDigitB_digitChar d hd), digitChar_toNat d hd]
    have hstep : parseDigitsAcc (48 + d - 48) (t ++ rest) =
        parseDigitsAcc 0 (natDigits n ++ rest) := by
      rw [heq, List.cons_append, parseDigitsAcc,
        if_pos (isDigitB_digitChar d hd), digitChar_toNat d hd]
      norm_num
    rw [hstep, parseDigitsAcc_append, parseDigitsAcc_stop _ _ h]
    simp

theorem parseStringBody_escape : ∀ (l rest : List Char),
    parseStringBody (escapeChars l ++ '"' :: rest) = some (l, rest) := by
  intro l
  induction l with
  | nil =>
    intro rest
    rw [show escapeChars [] ++ '"' :: rest = '"' :: rest from rfl, parseStringBody.eq_def]
    simp
  | cons c r ih =>
    intro rest
    by_cases h1 : c = '"'
    · subst h1
      simp only [escapeChars, escapeChar, if_pos rfl, List.cons_append, List.append_assoc]
      rw [parseStringBody.eq_def]
      simp [psCons, ih]
    by_cases h2 : c = '\\'
    · subst h2
      simp only [escapeChars, escapeChar, List.cons_append, List.append_assoc]
      norm_num
      rw [parseStringBody.eq_def]
      simp [psCons, ih]
    by_cases h3 : c = '\x08'
    · subst h3
      simp only [escapeChars, escapeChar, List.cons_append, List.append_assoc]
      norm_num
      rw [parseStringBody.eq_def]
      simp [psCons, ih]
    by_cases h4 : c = '\x0c'
    · subst h4
      simp only [escapeChars, escapeChar, List.cons_append, List.append_assoc]
      norm_num
      rw [parseStringBody.eq_def]
      simp [psCons, ih]
    by_cases h5 : c = '\n'
    · subst h5
      simp only [escapeChars, escapeChar, List.cons_append, List.append_assoc]
      norm_num
      rw [parseStringBody.eq_def]
      simp [psCons, ih]
    by_cases h6 : c = '\x0d'
    · subst h6
      simp only [escapeChars, escapeChar, List.cons_append, List.append_assoc]
      norm_num
      rw [parseStringBody.eq_def]
      simp [psCons, ih]
    by_cases h7 : c = '\t'
    · subst h7
      simp only [escapeChars, escapeChar, List.cons_append, List.append_assoc]
      norm_num
      rw [parseStringBody.eq_def]
      simp [psCons, ih]
    by_cases hc : c.toNat < 32
    · have hhi : c.toNat / 16 < 16 := by omega
      have hlo : c.toNat % 16 < 16 := Nat.mod_lt _ (by omega)
      have harg : ((0 * 16 + 0) * 16 + c.toNat / 16) * 16 + c.toNat % 16 = c.toNat := by
        omega
      simp only [escapeChars, escapeChar, h1, h2, h3, h4, h5, h6, h7, hc, if_neg,
        if_true, if_false, ite_true, ite_false, List.cons_append, List.append_assoc,
        List.nil_append]
      rw [parseStringBody.eq_def]
      simp [psCons, ih, fromHex_hexDigit _ hhi, fromHex_hexDigit _ hlo,
        show fromHex '0' = some 0 from by decide]
      have harg2 : c.toNat / 16 * 16 + c.toNat % 16 = c.toNat := by omega
      rw [harg2, Char.ofNat_toNat]
    · simp only [escapeChars, escapeChar, List.cons_append, List.append_assoc]
      rw [if_neg h1, if_neg h2, if_neg h3, if_neg h4, if_neg h5, if_neg h6, if_neg h7,
        if_neg hc]
      rw [List.cons_append, parseStringBody.eq_def]
      simp [h1, h2, hc, psCons, ih]

theorem one_le_sizeVal (v : Json) : 1 ≤ sizeVal v := by
  cases v <;> simp [sizeVal]

theorem one_le_sizeArr (vs : List Json) : 1 ≤ sizeArr vs := by
  cases vs with
  | nil => simp [sizeArr]
  | cons v vs =>
    have := one_le_sizeVal v
    simp [sizeArr]
    omega

theorem one_le_sizeObj (fs : List (String × Json)) : 1 ≤ sizeObj fs := by
  cases fs with
  | nil => simp [sizeObj]
  | cons f fs =>
    have := one_le_sizeVal f.2
    simp [sizeObj]
    omega

theorem litTrue_isPrefixOf_false (c : Char) (l : List Char) (h : ¬ c = 't') :
    litTrue.isPrefixOf (c :: l) = false := by
  rw [show litTrue = 't' :: ['r', 'u', 'e'] from rfl]
  exact isPrefixOf_cons_of_ne _ _ _ _ (fun hh => h hh.symm)

theorem litFalse_isPrefixOf_false (c : Char) (l : List Char) (h : ¬ c = 'f') :
    litFalse.isPrefixOf (c :: l) = false := by
  rw [show litFalse = 'f' :: ['a', 'l', 's', 'e'] from rfl]
  exact isPrefixOf_cons_of_ne _ _ _ _ (fun hh => h hh.symm)

theorem litNull_isPrefixOf_false (c : Char) (l : List Char) (h : ¬ c = 'n') :
    litNull.isPrefixOf (c :: l) = false := by
  rw [show litNull = 'n' :: ['u', 'l', 'l'] from rfl]
  exact isPrefixOf_cons_of_ne _ _ _ _ (fun hh => h hh.symm)

theorem numStart_arrTail (vs : List Json) (rest : List Char) :
    numStart (arrTailChars vs ++ rest) = false := by
  cases vs <;> simp [arrTailChars, numStart] <;> decide

theorem numStart_objTail (fs : List (String × Json)) (rest : List Char) :
    numStart (objTailChars fs ++ rest) = false := by
  cases fs <;> simp [objTailChars, numStart] <;> decide

theorem svHead (v : Json) :
    ∃ c t, stringifyVal v = c :: t ∧ isWsB c = false ∧ ¬ c = ']' := by
  cases v with
  | str s =>
    exact ⟨'"', escapeChars s.data ++ ['"'], by simp [stringifyVal, strLitChars],
      by decide, by decide⟩
  | num n =>
    by_cases hn : n < 0
    · exact ⟨'-', natDigits (-n).toNat, by simp [stringifyVal, intChars, hn],
        by decide, by decide⟩
    · obtain ⟨d, t, hd, heq⟩ := natDigits_head n.toNat
      refine ⟨digitChar d, t, ?_, isWsB_digitChar d hd, ?_⟩
      · simp [stringifyVal, intChars, hn, heq]
      · intro hc
        have h1 := digitChar_toNat d hd
        rw [hc] at h1
        have h2 : (']' : Char).toNat = 93 := by decide
        omega
  | bool b =>
    cases b
    · exact ⟨'f', ['a', 'l', 's', 'e'], by simp [stringifyVal, litFalse],
        by decide, by decide⟩
    · exact ⟨'t', ['r', 'u', 'e'], by simp [stringifyVal, litTrue],
        by decide, by decide⟩
  | null => exact ⟨'n', ['u', 'l', 'l'], by simp [stringifyVal, litNull],
      by decide, by decide⟩
  | arr vs =>
    cases vs with
    | nil => exact ⟨'[', [']'], by simp [stringifyVal], by decide, by decide⟩
    | cons v vs =>
      exact ⟨'[', stringifyVal v ++ arrTailChars vs, by simp [stringifyVal],
        by decide, by decide⟩
  | obj fs =>
    cases fs with
    | nil => exact ⟨'\x7b', ['\x7d'], by simp [stringifyVal], by decide, by decide⟩
    | cons f fs =>
      exact ⟨'\x7b', strLitChars f.1 ++ ':' :: (stringifyVal f.2 ++ objTailChars fs),
        by simp [stringifyVal], by decide, by decide⟩

theorem digitChar_facts (d : Nat) (h : d < 10) :
    isWsB (digitChar d) = false ∧ isDigitB (digitChar d) = true ∧
    ¬ digitChar d = 't' ∧ ¬ digitChar d = 'f' ∧ ¬ digitChar d = 'n' ∧
    ¬ digitChar d = '"' ∧ ¬ digitChar d = '[' ∧ ¬ digitChar d = '\x7b' ∧
    ¬ digitChar d = '-' := by
  interval_cases d <;> decide

theorem parse_stringify_fuel : ∀ fuel : Nat,
    (∀ v rest, sizeVal v ≤ fuel → numStart rest = false →
      parseVal fuel (stringifyVal v ++ rest) = some (v, rest)) ∧
    (∀ vs rest, sizeArr vs ≤ fuel → numStart rest = false →
      parseArrTail fuel (arrTailChars vs ++ rest) = some (vs, rest)) ∧
    (∀ fs rest, sizeObj fs ≤ fuel → numStart rest = false →
      parseObjTail fuel (objTailChars fs ++ rest) = some (fs, rest)) := by
  intro fuel
  induction fuel with
  | zero =>
    refine ⟨?_, ?_, ?_⟩
    · intro v rest hsz hrest
      have := one_le_sizeVal v
      omega
    · intro vs rest hsz hrest
      have := one_le_sizeArr vs
      omega
    · intro fs rest hsz hrest
      have := one_le_sizeObj fs
      omega
  | succ fuel ih =>
    obtain ⟨ihv, iha, iho⟩ := ih
    refine ⟨?_, ?_, ?_⟩
    · intro v rest hsz hrest
      cases v with
      | str s =>
        simp only [stringifyVal, strLitChars, List.cons_append, List.append_assoc]
        rw [parseVal.eq_2]
        simp [skipWs, isWsB, litTrue_isPrefixOf_false, litFalse_isPrefixOf_false,
          litNull_isPrefixOf_false, parseStringBody_escape]
      | num n =>
        by_cases hn : n < 0
        · simp only [stringifyVal, intChars, if_pos hn, List.cons_append]
          rw [parseVal.eq_2]
          simp [skipWs, isWsB, litTrue_isPrefixOf_false, litFalse_isPrefixOf_false,
            litNull_isPrefixOf_false, parseNat_natDigits _ _ hrest]
          omega
        · obtain ⟨d, t, hd, heq⟩ := natDigits_head n.toNat
          obtain ⟨hws, hdig, ht, hf, hn2, hq, hb, hbr, hm⟩ := digitChar_facts d hd
          simp only [stringifyVal, intChars, if_neg hn]
          rw [heq, List.cons_append, parseVal.eq_2]
          simp only [skipWs_cons _ _ hws, litTrue_isPrefixOf_false _ _ ht,
            litFalse_isPrefixOf_false _ _ hf, litNull_isPrefixOf_false _ _ hn2,
            Bool.false_eq_true, if_false, hq, hb, hbr, hm, hdig, ite_false, ite_true,
            if_true]
          rw [show digitChar d :: (t ++ rest) = natDigits n.toNat ++ rest from by
            rw [heq, List.cons_append]]
          rw [parseNat_natDigits _ _ hrest]
          simp
          omega
      | bool b =>
        cases b
        · simp only [stringifyVal]
          rw [parseVal.eq_2]
          simp [litTrue, litFalse, skipWs, isWsB, List.isPrefixOf]
        · simp only [stringifyVal]
          rw [parseVal.eq_2]
          simp [litTrue, skipWs, isWsB, List.isPrefixOf]
      | null =>
        simp only [stringifyVal]
        rw [parseVal.eq_2]
        simp [litTrue, litFalse, litNull, skipWs, isWsB, List.isPrefixOf]
      | arr vs =>
        cases vs with
        | nil =>
          simp only [stringifyVal, List.cons_append, List.nil_append]
          rw [parseVal.eq_2]
          rw [skipWs_cons _ _ (by decide : isWsB '[' = false)]
          rw [litTrue_isPrefixOf_false _ _ (by decide),
            litFalse_isPrefixOf_false _ _ (by decide),
            litNull_isPrefixOf_false _ _ (by decide)]
          simp [skipWs_cons _ _ (by decide : isWsB ']' = false)]
        | cons v vs =>
          have h1 : sizeVal v ≤ fuel := by
            have := one_le_sizeArr vs
            simp [sizeVal, sizeArr] at hsz
            omega
          have h2 : sizeArr vs ≤ fuel := by
            have := one_le_sizeVal v
            simp [sizeVal, sizeArr] at hsz
            omega
          obtain ⟨c0, t0, heq, hws, hne⟩ := svHead v
          simp only [stringifyVal, List.cons_append, List.append_assoc]
          rw [parseVal.eq_2]
          rw [skipWs_cons _ _ (by decide : isWsB '[' = false)]
          rw [litTrue_isPrefixOf_false _ _ (by decide),
            litFalse_isPrefixOf_false _ _ (by decide),
            litNull_isPrefixOf_false _ _ (by decide)]
          simp only [Bool.false_eq_true, if_false]
          rw [heq, List.cons_append]
          simp only [skipWs_cons _ _ hws, List.head?_cons, hne]
          simp only [show (('[' : Char) = '"') = False from by simp,
            show (('[' : Char) = '[') = True from by simp, ite_false, ite_true,
            if_false, if_true]
          simp only [Option.some.injEq, hne, ite_false, if_false]
          rw [← List.cons_append, ← heq,
            ihv v (arrTailChars vs ++ rest) h1 (numStart_arrTail vs rest)]
          simp [iha vs rest h2 hrest]
      | obj fs =>
        cases fs with
        | nil =>
          simp only [stringifyVal, List.cons_append, List.nil_append]
          rw [parseVal.eq_2]
          rw [skipWs_cons _ _ (by decide : isWsB '\x7b' = false)]
          rw [litTrue_isPrefixOf_false _ _ (by decide),
            litFalse_isPrefixOf_false _ _ (by decide),
            litNull_isPrefixOf_false _ _ (by decide)]
          simp [skipWs_cons _ _ (by decide : isWsB '\x7d' = false)]
        | cons f fs =>
          have h1 : sizeVal f.2 ≤ fuel := by
            have := one_le_sizeObj fs
            simp [sizeVal, sizeObj] at hsz
            omega
          have h2 : sizeObj fs ≤ fuel := by
            have := one_le_sizeVal f.2
            simp [sizeVal, sizeObj] at hsz
            omega
          simp only [stringifyVal, strLitChars, List.cons_append, List.append_assoc]
          rw [parseVal.eq_2]
          rw [skipWs_cons _ _ (by decide : isWsB '\x7b' = false)]
          rw [litTrue_isPrefixOf_false _ _ (by decide),
            litFalse_isPrefixOf_false _ _ (by decide),
            litNull_isPrefixOf_false _ _ (by decide)]
          simp only [Bool.false_eq_true, if_false]
          simp only [show (('\x7b' : Char) = '"') = False from by simp,
            show (('\x7b' : Char) = '[') = False from by simp,
            show (('\x7b' : Char) = '\x7b') = True from by simp, ite_false, ite_true]
          rw [skipWs_cons _ _ (by decide : isWsB '"' = false)]
          simp only [List.head?_cons, List.tail_cons,
            show (some ('"' : Char) = some '\x7d') = False from by simp,
            show (some ('"' : Char) = some '"') = True from by simp, ite_false, ite_true]
          rw [parseStringBody_escape]
          simp only [List.nil_append]
          rw [skipWs_cons _ _ (by decide : isWsB ':' = false)]
          simp only [List.head?_cons, List.tail_cons,
            show (some (':' : Char) = some ':') = True from by simp, ite_true]
          rw [ihv f.2 (objTailChars fs ++ rest) h1 (numStart_objTail fs rest)]
          simp [iho fs rest h2 hrest]
    · intro vs rest hsz hrest
      cases vs with
      | nil =>
        simp only [arrTailChars, List.cons_append, List.nil_append]
        rw [parseArrTail.eq_2]
        rw [skipWs_cons _ _ (by decide : isWsB ']' = false)]
        simp
      | cons v vs =>
        have h1 : sizeVal v ≤ fuel := by
          have := one_le_sizeArr vs
          simp [sizeArr] at hsz
          omega
        have h2 : sizeArr vs ≤ fuel := by
          have := one_le_sizeVal v
          simp [sizeArr] at hsz
          omega
        simp only [arrTailChars, List.cons_append, List.append_assoc]
        rw [parseArrTail.eq_2]
        rw [skipWs_cons _ _ (by decide : isWsB ',' = false)]
        simp only [List.head?_cons, List.tail_cons,
          show (some (',' : Char) = some ']') = False from by simp,
          show (some (',' : Char) = some ',') = True from by simp, ite_false, ite_true]
        rw [ihv v (arrTailChars vs ++ rest) h1 (numStart_arrTail vs rest)]
        simp [iha vs rest h2 hrest]
    · intro fs rest hsz hrest
      cases fs with
      | nil =>
        simp only [objTailChars, List.cons_append, List.nil_append]
        rw [parseObjTail.eq_2]
        rw [skipWs_cons _ _ (by decide : isWsB '\x7d' = false)]
        simp
      | cons f fs =>
        have h1 : sizeVal f.2 ≤ fuel := by
          have := one_le_sizeObj fs
          simp [sizeObj] at hsz
          omega
        have h2 : sizeObj fs ≤ fuel := by
          have := one_le_sizeVal f.2
          simp [sizeObj] at hsz
          omega
        simp only [objTailChars, strLitChars, List.cons_append, List.append_assoc]
        rw [parseObjTail.eq_2]
        rw [skipWs_cons _ _ (by decide : isWsB ',' = false)]
        simp only [List.head?_cons, List.tail_cons,
          show (some (',' : Char) = some '\x7d') = False from by simp,
          show (some (',' : Char) = some ',') = True from by simp, ite_false, ite_true]
        rw [skipWs_cons _ _ (by decide : isWsB '"' = false)]
        simp only [List.head?_cons, List.tail_cons,
          show (some ('"' : Char) = some '"') = True from by simp, ite_true]
        rw [parseStringBody_escape]
        simp only [List.nil_append]
        rw [skipWs_cons _ _ (by decide : isWsB ':' = false)]
        simp only [List.head?_cons, List.tail_cons,
          show (some (':' : Char) = some ':') = True from by simp, ite_true]
        rw [ihv f.2 (objTailChars fs ++ rest) h1 (numStart_objTail fs rest)]
        simp [iho fs rest h2 hrest]

theorem size_le_len_fuel : ∀ fuel : Nat,
    (∀ v, sizeVal v ≤ fuel → sizeVal v ≤ (stringifyVal v).length) ∧
    (∀ vs, sizeArr vs ≤ fuel → sizeArr vs ≤ (arrTailChars vs).length) ∧
    (∀ fs, sizeObj fs ≤ fuel → sizeObj fs ≤ (objTailChars fs).length) := by
  intro fuel
  induction fuel with
  | zero =>
    refine ⟨?_, ?_, ?_⟩
    · intro v hsz
      have := one_le_sizeVal v
      omega
    · intro vs hsz
      have := one_le_sizeArr vs
      omega
    · intro fs hsz
      have := one_le_sizeObj fs
      omega
  | succ fuel ih =>
    obtain ⟨ihv, iha, iho⟩ := ih
    refine ⟨?_, ?_, ?_⟩
    · intro v hsz
      cases v with
      | arr vs =>
        cases vs with
        | nil => simp [sizeVal, sizeArr, stringifyVal]
        | cons v vs =>
          have h1 : sizeVal v ≤ fuel := by
            have := one_le_sizeArr vs
            simp [sizeVal, sizeArr] at hsz
            omega
          have h2 : sizeArr vs ≤ fuel := by
            have := one_le_sizeVal v
            simp [sizeVal, sizeArr] at hsz
            omega
          have hv := ihv v h1
          have ha := iha vs h2
          simp only [sizeVal, sizeArr, stringifyVal, List.length_cons, List.length_append]
          omega
      | obj fs =>
        cases fs with
        | nil => simp [sizeVal, sizeObj, stringifyVal]
        | cons f fs =>
          have h1 : sizeVal f.2 ≤ fuel := by
            have := one_le_sizeObj fs
            simp [sizeVal, sizeObj] at hsz
            omega
          have h2 : sizeObj fs ≤ fuel := by
            have := one_le_sizeVal f.2
            simp [sizeVal, sizeObj] at hsz
            omega
          have hv := ihv f.2 h1
          have ho := iho fs h2
          simp only [sizeVal, sizeObj, stringifyVal, List.length_cons, List.length_append]
          omega
      | str s =>
        obtain ⟨c, t, heq, h1, h2⟩ := svHead (Json.str s)
        rw [heq]
        simp [sizeVal]
      | num n =>
        obtain ⟨c, t, heq, h1, h2⟩ := svHead (Json.num n)
        rw [heq]
        simp [sizeVal]
      | bool b =>
        obtain ⟨c, t, heq, h1, h2⟩ := svHead (Json.bool b)
        rw [heq]
        simp [sizeVal]
      | null =>
        obtain ⟨c, t, heq, h1, h2⟩ := svHead Json.null
        rw [heq]
        simp [sizeVal]
    · intro vs hsz
      cases vs with
      | nil => simp [sizeArr, arrTailChars]
      | cons v vs =>
        have h1 : sizeVal v ≤ fuel := by
          have := one_le_sizeArr vs
          simp [sizeArr] at hsz
          omega
        have h2 : sizeArr vs ≤ fuel := by
          have := one_le_sizeVal v
          simp [sizeArr] at hsz
          omega
        have hv := ihv v h1
        have ha := iha vs h2
        simp only [sizeArr, arrTailChars, List.length_cons, List.length_append]
        omega
    · intro fs hsz
      cases fs with
      | nil => simp [sizeObj, objTailChars]
      | cons f fs =>
        have h1 : sizeVal f.2 ≤ fuel := by
          have := one_le_sizeObj fs
          simp [sizeObj] at hsz
          omega
        have h2 : sizeObj fs ≤ fuel := by
          have := one_le_sizeVal f.2
          simp [sizeObj] at hsz
          omega
        have hv := ihv f.2 h1
        have ho := iho fs h2
        simp only [sizeObj, objTailChars, List.length_cons, List.length_append]
        omega

theorem sizeVal_le_length (v : Json) : sizeVal v ≤ (stringifyVal v).length :=
  (size_le_len_fuel (sizeVal v)).1 v le_rfl

/-- `JSON.parse` inverts `JSON.stringify`: the JSON round trip is the
identity on JSON values. -/
theorem parse_stringify (v : Json) : Json.parse (Json.stringify v) = some v := by
  unfold Json.parse Json.stringify
  have hdata : (String.mk (stringifyVal v)).data = stringifyVal v := rfl
  rw [hdata]
  have hfuel : sizeVal v ≤ (stringifyVal v).length + 1 := by
    have := sizeVal_le_length v
    omega
  have h := (parse_stringify_fuel ((stringifyVal v).length + 1)).1 v [] hfuel rfl
  rw [List.append_nil] at h
  rw [h]
  simp [skipWs]

/-- `JSON.stringify` never returns the empty string. -/
theorem stringify_ne_empty (v : Json) : Json.stringify v ≠ "" := by
  obtain ⟨c, t, heq, h1, h2⟩ := svHead v
  intro h
  have hd := congrArg String.data h
  rw [show (Json.stringify v).data = stringifyVal v from rfl, heq] at hd
  simp at hd

theorem find?_filter_of_imp (l : List (String × String × Nat))
    (p q : (String × String × Nat) → Bool)
    (h : ∀ e, p e = true → q e = true) :
    (l.filter q).find? p = l.find? p := by
  induction l with
  | nil => rfl
  | cons a l ih =>
    by_cases hq : q a = true
    · rw [List.filter_cons_of_pos hq]
      by_cases hp : p a = true
      · rw [List.find?_cons_of_pos _ hp, List.find?_cons_of_pos _ hp]
      · rw [List.find?_cons_of_neg _ (by simpa using hp),
          List.find?_cons_of_neg _ (by simpa using hp), ih]
    · have hp : ¬ p a = true := fun hpa => hq (h a hpa)
      rw [List.filter_cons_of_neg (by simpa using hq), ih,
        List.find?_cons_of_neg _ (by simpa using hp)]

theorem find?_filter_incompat (l : List (String × String × Nat))
    (p q : (String × String × Nat) → Bool)
    (h : ∀ e, q e = true → p e = false) :
    (l.filter q).find? p = none := by
  induction l with
  | nil => rfl
  | cons a l ih =>
    by_cases hq : q a = true
    · rw [List.filter_cons_of_pos hq, List.find?_cons_of_neg _ (by simp [h a hq]), ih]
    · rw [List.filter_cons_of_neg (by simpa using hq), ih]

theorem getRedis_of_stringify (st : Store) (k : String) (now : Nat) (v : Json)
    (h : redisGet st k now = some (Json.stringify v)) :
    getRedis st k now = Except.ok (some v) := by
  unfold getRedis
  rw [h]
  simp only [if_neg (stringify_ne_empty v), parse_stringify]

/-- Claim C1: for every key, JSON-serializable value and TTL > 0, `setRedis`
followed immediately by `getRedis` on the same key returns a value equal to
the stored value (the JSON round trip is the identity on JSON values). -/
theorem C1_set_then_get_returns_value (st : Store) (k : String) (v : Json)
    (ttl : Int) (now : Nat) (hpos : 0 < ttl) (st2 : Store)
    (hset : setRedis st k v (some ttl) now = Except.ok st2) :
    getRedis st2 k now = Except.ok (some v) := by
  unfold setRedis redisSetEx at hset
  rw [show (some ttl).getD REDIS_TTL = ttl from rfl,
    if_neg (by omega : ¬ ttl ≤ 0)] at hset
  have hst2 : st2 = (k, Json.stringify v, now + ttl.toNat)
      :: st.filter (fun e => !(e.1 == k)) := by
    cases hset
    rfl
  subst hst2
  apply getRedis_of_stringify
  unfold redisGet
  rw [List.find?_cons_of_pos _ (by simp)]
  simp only [if_pos (by omega : now < now + ttl.toNat)]

theorem C1_witness :
    (0 : Int) < 1 ∧
    getRedis [("k", "true", 1)] "k" 0 = Except.ok (some (Json.bool true)) :=
  ⟨by decide,
    C1_set_then_get_returns_value [] "k" (Json.bool true) 1 0 (by decide)
      [("k", "true", 1)]
      (by simp [setRedis, redisSetEx, Json.stringify, stringifyVal, REDIS_TTL]; rfl)⟩

/-- Claim C4: `setRedis` without a TTL argument stores the JSON serialization
of the value under the key with an expiry of exactly 3600 seconds; with a TTL
argument that TTL is used instead; in both cases any existing entry at the
key is overwritten (removed from the store and replaced). -/
theorem C4_setRedis_default_ttl (st : Store) (k : String) (v : Json) (now : Nat) :
    setRedis st k v none now =
      Except.ok ((k, Json.stringify v, now + 3600)
        :: st.filter (fun e => !(e.1 == k))) ∧
    ∀ t : Int, 0 < t →
      setRedis st k v (some t) now =
        Except.ok ((k, Json.stringify v, now + t.toNat)
          :: st.filter (fun e => !(e.1 == k))) := by
  constructor
  · unfold setRedis redisSetEx
    rw [show (none : Option Int).getD REDIS_TTL = REDIS_TTL from rfl,
      if_neg (by decide : ¬ (REDIS_TTL ≤ 0)),
      show (REDIS_TTL : Int).toNat = 3600 from by decide]
  · intro t ht
    unfold setRedis redisSetEx
    rw [show (some t).getD REDIS_TTL = t from rfl, if_neg (by omega : ¬ t ≤ 0)]

theorem C4_witness :
    (0 : Int) < 7 ∧
    setRedis [("k", "old", 99)] "k" Json.null none 5 =
      Except.ok [("k", "null", 5 + 3600)] ∧
    setRedis [("k", "old", 99)] "k" Json.null (some 7) 5 =
      Except.ok [("k", "null", 5 + 7)] :=
  ⟨by decide,
    by
      have h := (C4_setRedis_default_ttl [("k", "old", 99)] "k" Json.null 5).1
      rw [h]
      simp [Json.stringify, stringifyVal, litNull],
    by
      have h := (C4_setRedis_default_ttl [("k", "old", 99)] "k" Json.null 5).2 7
        (by decide)
      rw [h]
      simp [Json.stringify, stringifyVal, litNull]⟩

/-- Claim C9: the 3600 s default applies only when the TTL argument is
absent (`undefined`/`null`, both modelled as `none`); any provided TTL is
passed through unchanged to the store — in particular `setRedis` with TTL 0
(or any non-positive TTL) surfaces the Redis rejection of a non-positive
expiry instead of falling back to the default. -/
theorem C9_ttl_nullish_passthrough (st : Store) (k : String) (v : Json) (now : Nat) :
    (∀ t : Int, setRedis st k v (some t) now =
      redisSetEx st k (Json.stringify v) t now) ∧
    setRedis st k v none now = redisSetEx st k (Json.stringify v) REDIS_TTL now ∧
    (∀ t : Int, t ≤ 0 →
      setRedis st k v (some t) now = Except.error redisErrInvalidExpire) ∧
    setRedis st k v (some 0) now = Except.error redisErrInvalidExpire := by
  refine ⟨fun t => rfl, rfl, ?_, ?_⟩
  · intro t ht
    unfold setRedis redisSetEx
    rw [show (some t).getD REDIS_TTL = t from rfl, if_pos ht]
  · unfold setRedis redisSetEx
    rw [show (some (0 : Int)).getD REDIS_TTL = 0 from rfl,
      if_pos (by decide : (0 : Int) ≤ 0)]

theorem C9_witness :
    (-3 : Int) ≤ 0 ∧
    setRedis [] "k" (Json.bool false) (some (-3)) 0 =
      Except.error redisErrInvalidExpire :=
  ⟨by decide,
    (C9_ttl_nullish_passthrough [] "k" (Json.bool false) 0).2.2.1 (-3) (by decide)⟩

/-- Claim C5: `getRedis` on a key the store holds no live string for
(never set, or expired) returns `undefined` (`Except.ok none`) rather than
throwing or returning any other value. -/
theorem C5_get_absent_returns_undefined (st : Store) (k : String) (now : Nat)
    (h : redisGet st k now = none) : getRedis st k now = Except.ok none := by
  unfold getRedis
  rw [h]

theorem C5_witness :
    redisGet [("other", "1", 9), ("gone", "2", 3)] "gone" 7 = none ∧
    getRedis [("other", "1", 9), ("gone", "2", 3)] "gone" 7 = Except.ok none :=
  ⟨by decide,
    C5_get_absent_returns_undefined [("other", "1", 9), ("gone", "2", 3)] "gone" 7
      (by decide)⟩

/-- Claim C6 fails as stated: the empty string is not valid JSON
(`JSON.parse("")` throws), yet when the stored value is the empty string
`getRedis` does not throw — the JS truthiness test `value ? ... : undefined`
treats `""` as falsy and silently returns `undefined`. -/
theorem C6_counterexample :
    redisGet [("k", "", 9)] "k" 0 = some "" ∧
    Json.parse "" = none ∧
    getRedis [("k", "", 9)] "k" 0 = Except.ok none := by
  refine ⟨by decide, by rfl, by rfl⟩

/-- Claim C6 (amended): if the string stored at a key is non-empty and not
valid JSON, `getRedis` throws (the parse failure propagates to the caller);
the stored empty string is the one exception, treated as falsy and returned
as `undefined`. -/
theorem C6_amended_nonempty_invalid_throws (st : Store) (k : String) (now : Nat)
    (s : String) (hget : redisGet st k now = some s) (hne : ¬ s = "")
    (hbad : Json.parse s = none) :
    getRedis st k now = Except.error jsonSyntaxErr := by
  unfold getRedis
  rw [hget]
  simp only [if_neg hne, hbad]

theorem C6_witness :
    Json.parse "[" = none ∧
    getRedis [("k", "[", 9)] "k" 0 = Except.error jsonSyntaxErr :=
  ⟨by rfl,
    C6_amended_nonempty_invalid_throws [("k", "[", 9)] "k" 0 "[" (by decide)
      (by decide) (by rfl)⟩

/-- Claim C7: `deleteRedis` removes the entry so that a subsequent
`getRedis` on the key returns absent, and it is an idempotent no-op on an
absent key — deleting twice equals deleting once (and `DEL` never errors:
`deleteRedis` is a total function on stores). -/
theorem C7_deleteRedis_idempotent (st : Store) (k : String) (now : Nat) :
    getRedis (deleteRedis st k) k now = Except.ok none ∧
    deleteRedis (deleteRedis st k) k = deleteRedis st k := by
  constructor
  · unfold getRedis
    rw [show redisGet (deleteRedis st k) k now = none from by
      unfold redisGet deleteRedis redisDel
      rw [find?_filter_incompat _ _ _ (fun e he => by
        simpa using he)]]
  · unfold deleteRedis redisDel
    rw [List.filter_filter]
    simp

/-- Claim C10: every string `setRedis` stores is a valid non-empty JSON text
(it is `JSON.stringify` of a JSON value), so for any key whose stored value
was written by `setRedis` the `JSON.parse` branch of `getRedis` cannot
throw: it returns the parsed value. -/
theorem C10_stored_strings_parse (v : Json) :
    Json.stringify v ≠ "" ∧
    Json.parse (Json.stringify v) = some v ∧
    ∀ st k now, redisGet st k now = some (Json.stringify v) →
      getRedis st k now = Except.ok (some v) :=
  ⟨stringify_ne_empty v, parse_stringify v,
    fun st k now h => getRedis_of_stringify st k now v h⟩

theorem C10_witness :
    redisGet [("k", "true", 9)] "k" 0 = some (Json.stringify (Json.bool true)) ∧
    getRedis [("k", "true", 9)] "k" 0 = Except.ok (some (Json.bool true)) :=
  ⟨by simp [Json.stringify, stringifyVal, litTrue]; rfl,
    (C10_stored_strings_parse (Json.bool true)).2.2 [("k", "true", 9)] "k" 0
      (by simp [Json.stringify, stringifyVal, litTrue]; rfl)⟩

theorem rlLookup_rlSet_self (st : RLState) (k : String) (c e : Nat) :
    rlLookup (rlSet st k c e) k = some (c, e) := by
  unfold rlLookup rlSet
  rw [List.find?_cons_of_pos _ (by simp)]
  rfl

theorem rlLookup_rlSet_other (st : RLState) (k k2 : String) (c e : Nat)
    (h : ¬ k = k2) : rlLookup (rlSet st k c e) k2 = rlLookup st k2 := by
  unfold rlLookup rlSet
  rw [List.find?_cons_of_neg _ (by simp [h])]
  congr 1
  induction st with
  | nil => rfl
  | cons a l ih =>
    by_cases ha : a.1 = k
    · rw [List.filter_cons_of_neg (by simp [ha]),
        List.find?_cons_of_neg _ (by simp [ha, h]), ih]
    · by_cases hak : a.1 = k2
      · rw [List.filter_cons_of_pos (by simp [ha]), List.find?_cons_of_pos _ (by simp [hak]),
          List.find?_cons_of_pos _ (by simp [hak])]
      · rw [List.filter_cons_of_pos (by simp [ha]),
          List.find?_cons_of_neg _ (by simp [hak]),
          List.find?_cons_of_neg _ (by simp [hak]), ih]

theorem consume_fresh (cfg : RateLimiterMemory) (st : RLState) (k : String)
    (now : Nat) (h : rlLookup st k = none) :
    consume cfg st k now =
      (decide (1 ≤ cfg.points), rlSet st k 1 (now + cfg.duration * 1000)) := by
  simp [consume, h]

theorem consume_live (cfg : RateLimiterMemory) (st : RLState) (k : String)
    (now cnt expiry : Nat) (h : rlLookup st k = some (cnt, expiry))
    (hlive : now < expiry) :
    consume cfg st k now =
      (decide (cnt + 1 ≤ cfg.points), rlSet st k (cnt + 1) expiry) := by
  simp [consume, h, hlive]

theorem consume_expired (cfg : RateLimiterMemory) (st : RLState) (k : String)
    (now cnt expiry : Nat) (h : rlLookup st k = some (cnt, expiry))
    (hexp : ¬ now < expiry) :
    consume cfg st k now =
      (decide (1 ≤ cfg.points), rlSet st k 1 (now + cfg.duration * 1000)) := by
  simp [consume, h, hexp]

theorem consumeMany_nil (cfg : RateLimiterMemory) (st : RLState) (k : String) :
    consumeMany cfg st k [] = st := rfl

theorem consumeMany_cons (cfg : RateLimiterMemory) (st : RLState) (k : String)
    (t : Nat) (ts : List Nat) :
    consumeMany cfg st k (t :: ts) = consumeMany cfg ((consume cfg st k t).2) k ts := rfl

theorem consumeMany_append (cfg : RateLimiterMemory) (st : RLState) (k : String)
    (ts1 ts2 : List Nat) :
    consumeMany cfg st k (ts1 ++ ts2) = consumeMany cfg (consumeMany cfg st k ts1) k ts2 := by
  unfold consumeMany
  rw [List.foldl_append]

/-- Claim C2: for a fresh key and a budget of 5 points per 60 s window, the
first five `consume` calls all succeed, a sixth call within the same window
is rejected, and a call at or after the window expiry succeeds again (the
counter is reset). -/
theorem C2_rate_limiter_window (st : RLState) (k : String)
    (t1 t2 t3 t4 t5 t6 t7 : Nat) (hfresh : rlLookup st k = none)
    (h12 : t1 ≤ t2) (h23 : t2 ≤ t3) (h34 : t3 ≤ t4) (h45 : t4 ≤ t5) (h56 : t5 ≤ t6)
    (hwin : t6 < t1 + 60000) (h7 : t1 + 60000 ≤ t7) :
    (consume rateLimiter st k t1).1 = true ∧
    (consume rateLimiter (consumeMany rateLimiter st k [t1]) k t2).1 = true ∧
    (consume rateLimiter (consumeMany rateLimiter st k [t1, t2]) k t3).1 = true ∧
    (consume rateLimiter (consumeMany rateLimiter st k [t1, t2, t3]) k t4).1 = true ∧
    (consume rateLimiter (consumeMany rateLimiter st k [t1, t2, t3, t4]) k t5).1
      = true ∧
    (consume rateLimiter (consumeMany rateLimiter st k [t1, t2, t3, t4, t5]) k t6).1
      = false ∧
    (consume rateLimiter
      (consumeMany rateLimiter st k [t1, t2, t3, t4, t5, t6]) k t7).1 = true := by
  have l1 : rlLookup (consumeMany rateLimiter st k [t1]) k = some (1, t1 + 60000) := by
    rw [consumeMany_cons, consumeMany_nil, consume_fresh _ _ _ _ hfresh,
      rlLookup_rlSet_self]
    norm_num [rateLimiter]
  have l2 : rlLookup (consumeMany rateLimiter st k [t1, t2]) k
      = some (2, t1 + 60000) := by
    rw [show ([t1, t2] : List Nat) = [t1] ++ [t2] from rfl, consumeMany_append,
      consumeMany_cons, consumeMany_nil,
      consume_live _ _ _ _ 1 (t1 + 60000) l1 (by omega), rlLookup_rlSet_self]
  have l3 : rlLookup (consumeMany rateLimiter st k [t1, t2, t3]) k
      = some (3, t1 + 60000) := by
    rw [show ([t1, t2, t3] : List Nat) = [t1, t2] ++ [t3] from rfl, consumeMany_append,
      consumeMany_cons, consumeMany_nil,
      consume_live _ _ _ _ 2 (t1 + 60000) l2 (by omega), rlLookup_rlSet_self]
  have l4 : rlLookup (consumeMany rateLimiter st k [t1, t2, t3, t4]) k
      = some (4, t1 + 60000) := by
    rw [show ([t1, t2, t3, t4] : List Nat) = [t1, t2, t3] ++ [t4] from rfl,
      consumeMany_append, consumeMany_cons, consumeMany_nil,
      consume_live _ _ _ _ 3 (t1 + 60000) l3 (by omega), rlLookup_rlSet_self]
  have l5 : rlLookup (consumeMany rateLimiter st k [t1, t2, t3, t4, t5]) k
      = some (5, t1 + 60000) := by
    rw [show ([t1, t2, t3, t4, t5] : List Nat) = [t1, t2, t3, t4] ++ [t5] from rfl,
      consumeMany_append, consumeMany_cons, consumeMany_nil,
      consume_live _ _ _ _ 4 (t1 + 60000) l4 (by omega), rlLookup_rlSet_self]
  have l6 : rlLookup (consumeMany rateLimiter st k [t1, t2, t3, t4, t5, t6]) k
      = some (6, t1 + 60000) := by
    rw [show ([t1, t2, t3, t4, t5, t6] : List Nat) = [t1, t2, t3, t4, t5] ++ [t6]
      from rfl, consumeMany_append, consumeMany_cons, consumeMany_nil,
      consume_live _ _ _ _ 5 (t1 + 60000) l5 (by omega), rlLookup_rlSet_self]
  refine ⟨?_, ?_, ?_, ?_, ?_, ?_, ?_⟩
  · rw [consume_fresh _ _ _ _ hfresh]
    norm_num [rateLimiter]
  · rw [consume_live _ _ _ _ 1 (t1 + 60000) l1 (by omega)]
    norm_num [rateLimiter]
  · rw [consume_live _ _ _ _ 2 (t1 + 60000) l2 (by omega)]
    norm_num [rateLimiter]
  · rw [consume_live _ _ _ _ 3 (t1 + 60000) l3 (by omega)]
    norm_num [rateLimiter]
  · rw [consume_live _ _ _ _ 4 (t1 + 60000) l4 (by omega)]
    norm_num [rateLimiter]
  · rw [consume_live _ _ _ _ 5 (t1 + 60000) l5 (by omega)]
    norm_num [rateLimiter]
  · rw [consume_expired _ _ _ _ 6 (t1 + 60000) l6 (by omega)]
    norm_num [rateLimiter]

theorem C2_witness :
    (consume rateLimiter [] "k" 0).1 = true ∧
    (consume rateLimiter (consumeMany rateLimiter [] "k" [0]) "k" 0).1 = true ∧
    (consume rateLimiter (consumeMany rateLimiter [] "k" [0, 0]) "k" 0).1 = true ∧
    (consume rateLimiter (consumeMany rateLimiter [] "k" [0, 0, 0]) "k" 0).1 = true ∧
    (consume rateLimiter (consumeMany rateLimiter [] "k" [0, 0, 0, 0]) "k" 0).1
      = true ∧
    (consume rateLimiter (consumeMany rateLimiter [] "k" [0, 0, 0, 0, 0]) "k" 0).1
      = false ∧
    (consume rateLimiter
      (consumeMany rateLimiter [] "k" [0, 0, 0, 0, 0, 0]) "k" 60000).1 = true :=
  C2_rate_limiter_window [] "k" 0 0 0 0 0 0 60000 rfl (by decide) (by decide)
    (by decide) (by decide) (by decide) (by decide) (by decide)

theorem consume_other_key (cfg : RateLimiterMemory) (st : RLState) (a b : String)
    (t : Nat) (h : ¬ a = b) :
    rlLookup ((consume cfg st a t).2) b = rlLookup st b := by
  unfold consume
  cases hl : rlLookup st a with
  | none => simp [rlLookup_rlSet_other st a b _ _ h]
  | some p =>
    by_cases hlive : t < p.2
    · simp [hlive, rlLookup_rlSet_other st a b _ _ h]
    · simp [hlive, rlLookup_rlSet_other st a b _ _ h]

theorem consumeMany_other_key (cfg : RateLimiterMemory) (st : RLState)
    (a b : String) (ts : List Nat) (h : ¬ a = b) :
    rlLookup (consumeMany cfg st a ts) b = rlLookup st b := by
  induction ts generalizing st with
  | nil => rfl
  | cons t ts ih =>
    rw [consumeMany_cons, ih ((consume cfg st a t).2), consume_other_key _ _ _ _ _ h]

theorem consume_congr (cfg : RateLimiterMemory) (st st2 : RLState) (b : String)
    (t : Nat) (h : rlLookup st b = rlLookup st2 b) :
    (consume cfg st b t).1 = (consume cfg st2 b t).1 ∧
    rlLookup ((consume cfg st b t).2) b = rlLookup ((consume cfg st2 b t).2) b := by
  unfold consume
  rw [h]
  cases hl : rlLookup st2 b with
  | none => simp [rlLookup_rlSet_self]
  | some p =>
    by_cases hlive : t < p.2
    · simp [hlive, rlLookup_rlSet_self]
    · simp [hlive, rlLookup_rlSet_self]

/-- Claim C8: for distinct keys `a` and `b`, any sequence of `consume`
calls for `a` (at any times, including ones exhausting the budget of `a`)
leaves the record of `b` unchanged, and a subsequent `consume` of `b`
succeeds or fails exactly as it would have without the calls for `a`, with
the same effect on the record of `b`. -/
theorem C8_rate_limiter_key_independence (st : RLState) (a b : String)
    (hab : ¬ a = b) (ts : List Nat) :
    rlLookup (consumeMany rateLimiter st a ts) b = rlLookup st b ∧
    ∀ t : Nat,
      (consume rateLimiter (consumeMany rateLimiter st a ts) b t).1
        = (consume rateLimiter st b t).1 ∧
      rlLookup ((consume rateLimiter (consumeMany rateLimiter st a ts) b t).2) b
        = rlLookup ((consume rateLimiter st b t).2) b := by
  have hm := consumeMany_other_key rateLimiter st a b ts hab
  exact ⟨hm, fun t => consume_congr rateLimiter _ st b t hm⟩

theorem C8_witness :
    rlLookup (consumeMany rateLimiter [] "a" [0, 0, 0, 0, 0, 0]) "b"
      = rlLookup ([] : RLState) "b" ∧
    (consume rateLimiter (consumeMany rateLimiter [] "a" [0, 0, 0, 0, 0, 0]) "b" 0).1
      = (consume rateLimiter [] "b" 0).1 :=
  ⟨(C8_rate_limiter_key_independence [] "a" "b" (by decide) [0, 0, 0, 0, 0, 0]).1,
    ((C8_rate_limiter_key_independence [] "a" "b" (by decide) [0, 0, 0, 0, 0, 0]).2 0).1⟩

theorem globMatch_star_all (s : List Char) : globMatch ['*'] s = true := by
  induction s with
  | nil => simp [globMatch]
  | cons c s2 ih =>
    rw [globMatch.eq_def]
    simp [ih]

theorem globMatch_lit_cons (a : Char) (p s : List Char)
    (h1 : ¬ a = '*') (h2 : ¬ a = '?') (h3 : ¬ a = '[') (h4 : ¬ a = '\\') :
    globMatch (a :: p) s =
      (match s with
       | [] => false
       | c :: s2 => (a == c) && globMatch p s2) := by
  rw [globMatch.eq_def]
  simp only [if_neg h1, if_neg h2, if_neg h3, if_neg h4]

theorem globMatch_noGlob_isPrefixOf : ∀ (p s : List Char), noGlobChars p = true →
    globMatch (p ++ ['*']) s = p.isPrefixOf s := by
  intro p
  induction p with
  | nil =>
    intro s h
    rw [List.nil_append, globMatch_star_all]
    simp [List.isPrefixOf]
  | cons c p ih =>
    intro s h
    simp only [noGlobChars, List.all_cons, Bool.and_eq_true] at h
    obtain ⟨hc, hp⟩ := h
    simp only [Bool.not_eq_true', Bool.or_eq_false_iff, beq_eq_false_iff_ne] at hc
    obtain ⟨⟨⟨hcs, hcq⟩, hcb⟩, hcbs⟩ := hc
    rw [List.cons_append, globMatch_lit_cons c _ s hcs hcq hcb hcbs]
    cases s with
    | nil => simp [List.isPrefixOf]
    | cons c2 s2 =>
      have hp2 : noGlobChars p = true := hp
      simp only [ih s2 hp2]
      simp [List.isPrefixOf]

theorem redisKeysWithPre_noGlob (st : Store) (pre : String) (now : Nat)
    (hglob : noGlobChars pre.data = true) :
    redisKeysWithPre st pre now =
      (st.filter (fun e => pre.data.isPrefixOf e.1.data && decide (now < e.2.2))).map
        (fun e => e.1) := by
  unfold redisKeysWithPre
  congr 1
  apply List.filter_congr
  intro e he
  rw [globMatch_noGlob_isPrefixOf _ _ hglob]

/-- Claim C3 fails as stated: `redis.keys` treats `prefix + "*"` as a glob
pattern, so for the prefix `"a*"` the pattern `"a**"` matches the key
`"ab"`, which does not begin with the literal prefix `"a*"` — the key is
deleted even though the claim says keys not beginning with the prefix keep
their value. -/
theorem C3_counterexample :
    "a*".data.isPrefixOf "ab".data = false ∧
    redisGet [("ab", "1", 9)] "ab" 0 = some "1" ∧
    redisGet ( deleteKeysWithPrefix [("ab", "1", 9)] "a*" 0) "ab" 0 = none := by
  refine ⟨by decide, by decide, ?_⟩
  have hk : redisKeysWithPre [("ab", "1", 9)] "a*" 0 = ["ab"] := by
    simp [redisKeysWithPre, globMatch]
  simp only [deleteKeysWithPrefix, hk]
  decide

/-- Claim C3 (amended): for a prefix containing no glob metacharacters
(`*`, `?`, `[`, `\`), `deleteKeysWithPrefix` removes exactly the keys
beginning with the prefix: afterwards `getRedis` on any key with the prefix
returns absent, and the raw store lookup of any key without the prefix is
unchanged (so its value is untouched).  (For a prefix with metacharacters,
`redis.keys` applies glob semantics instead — see the counterexample.) -/
theorem C3_deletePrefix_exact_noGlob (st : Store) (pre k : String) (now : Nat)
    (hglob : noGlobChars pre.data = true) :
    (pre.data.isPrefixOf k.data = true →
      getRedis ( deleteKeysWithPrefix st pre now) k now = Except.ok none) ∧
    (pre.data.isPrefixOf k.data = false →
      redisGet ( deleteKeysWithPrefix st pre now) k now = redisGet st k now) := by
  constructor
  · intro hpre
    have hget : redisGet ( deleteKeysWithPrefix st pre now) k now = none := by
      unfold deleteKeysWithPrefix
      by_cases hks : (redisKeysWithPre st pre now).isEmpty = true
      · rw [if_pos hks]
        unfold redisGet
        cases hf : st.find? (fun e => e.1 == k) with
        | none => rfl
        | some e =>
          show (if now < e.2.2 then some e.2.1 else none) = none
          rw [if_neg ?_]
          intro hlive
          have hmem := List.mem_of_find?_eq_some hf
          have hpe : e.1 = k := by simpa using List.find?_some hf
          have hin : e ∈ st.filter
              (fun e => pre.data.isPrefixOf e.1.data && decide (now < e.2.2)) := by
            rw [List.mem_filter]
            exact ⟨hmem, by simp [hpe, hpre, hlive]⟩
          have hmemks : e.1 ∈ redisKeysWithPre st pre now := by
            rw [redisKeysWithPre_noGlob st pre now hglob]
            exact List.mem_map_of_mem _ hin
          rw [List.isEmpty_iff] at hks
          rw [hks] at hmemks
          simp at hmemks
      · rw [if_neg hks]
        unfold redisDelMulti redisGet
        cases hf : (st.filter
            (fun e => !((redisKeysWithPre st pre now).contains e.1))).find?
            (fun e => e.1 == k) with
        | none => rfl
        | some e =>
          show (if now < e.2.2 then some e.2.1 else none) = none
          rw [if_neg ?_]
          intro hlive
          have hmem := List.mem_of_find?_eq_some hf
          have hpe : e.1 = k := by simpa using List.find?_some hf
          rw [List.mem_filter] at hmem
          obtain ⟨hst, hnotin⟩ := hmem
          have hin : e ∈ st.filter
              (fun e => pre.data.isPrefixOf e.1.data && decide (now < e.2.2)) := by
            rw [List.mem_filter]
            exact ⟨hst, by simp [hpe, hpre, hlive]⟩
          have hmemks : e.1 ∈ redisKeysWithPre st pre now := by
            rw [redisKeysWithPre_noGlob st pre now hglob]
            exact List.mem_map_of_mem _ hin
          have hcontains : (redisKeysWithPre st pre now).contains e.1 = true :=
            List.elem_iff.mpr hmemks
          rw [hcontains] at hnotin
          simp at hnotin
    unfold getRedis
    rw [hget]
  · intro hpre
    have hnotmem : ¬ k ∈ redisKeysWithPre st pre now := by
      intro hk
      rw [redisKeysWithPre_noGlob st pre now hglob] at hk
      rw [List.mem_map] at hk
      obtain ⟨e2, he2, he2k⟩ := hk
      rw [List.mem_filter] at he2
      obtain ⟨-, hp2⟩ := he2
      rw [he2k] at hp2
      simp [hpre] at hp2
    unfold deleteKeysWithPrefix
    by_cases hks : (redisKeysWithPre st pre now).isEmpty = true
    · rw [if_pos hks]
    · rw [if_neg hks]
      unfold redisDelMulti redisGet
      rw [find?_filter_of_imp _ _ _ ?_]
      intro e he
      have hpe : e.1 = k := by simpa using he
      rw [hpe]
      cases hc : (redisKeysWithPre st pre now).contains k with
      | false => rfl
      | true => exact absurd (List.elem_iff.mp hc) hnotmem

theorem C3_witness :
    noGlobChars "user:1:".data = true ∧
    ("user:1:".data.isPrefixOf "user:1:a".data = true ∧
      getRedis ( deleteKeysWithPrefix
        [("user:1:a", "1", 9), ("user:1:b", "2", 9), ("user:2:a", "3", 9)]
        "user:1:" 0) "user:1:a" 0 = Except.ok none) ∧
    ("user:1:".data.isPrefixOf "user:2:a".data = false ∧
      redisGet ( deleteKeysWithPrefix
        [("user:1:a", "1", 9), ("user:1:b", "2", 9), ("user:2:a", "3", 9)]
        "user:1:" 0) "user:2:a" 0 =
      redisGet [("user:1:a", "1", 9), ("user:1:b", "2", 9), ("user:2:a", "3", 9)]
        "user:2:a" 0) :=
  ⟨by decide,
   ⟨by decide,
    (C3_deletePrefix_exact_noGlob
      [("user:1:a", "1", 9), ("user:1:b", "2", 9), ("user:2:a", "3", 9)]
      "user:1:" "user:1:a" 0 (by decide)).1 (by decide)⟩,
   ⟨by decide,
    (C3_deletePrefix_exact_noGlob
      [("user:1:a", "1", 9), ("user:1:b", "2", 9), ("user:2:a", "3", 9)]
      "user:1:" "user:2:a" 0 (by decide)).2 (by decide)⟩⟩
